import Mathlib

set_option autoImplicit false

/-!
Shallow embedding of the vectorized distribution-dispatch core of the
stochastic extension (src/src/include/utils.hpp, src/src/quack_extension.cpp,
src/src/distribution_exponential.cpp, src/src/distribution_binomial.cpp,
src/src/rng_utils.cpp, src/src/include/rng_utils.hpp), together with proofs
about the batched evaluators, null propagation, parameter validation, the
sampling paths and the thread-indexed RNG provider.

A column vector is either a constant (one repeated value with a single null
flag) or a flat array of stored values with a per-row validity mask; reading
the stored slot under a null row is well defined (it yields whatever the
buffer holds), which mirrors the engine's memory model.  Distribution
instances are identified with their parameter tuples; validation, instance
construction, operation application and random draws are recorded as events
in a trace so that counting claims ("exactly once per row") can be stated.
Exceptions thrown by parameter validation are modelled with `Except`.
-/

namespace Stochastic

/-- A column of a batch: either a single repeated (possibly null) constant
value, or a fully materialized buffer of stored values plus a per-row
validity mask. -/
inductive Vec (α : Type) where
  | const : Option α → Vec α
  | flat : List α → List Bool → Vec α
deriving DecidableEq

namespace Vec

variable {α : Type}

/-- Models `GetVectorType() == VectorType::CONSTANT_VECTOR`. -/
def isConst : Vec α → Bool
  | .const _ => true
  | .flat _ _ => false

/-- Models `ConstantVector::IsNull` (false on non-constant vectors). -/
def isConstNull : Vec α → Bool
  | .const none => true
  | _ => false

/-- Models `ConstantVector::GetData(v)[0]`; the stored slot of a null
constant (never read on the non-buggy paths) is unspecified in the source
and modelled by `default`. -/
def cdata [Inhabited α] : Vec α → α
  | .const (some x) => x
  | _ => default

/-- Per-row validity, as exposed by `UnifiedVectorFormat::validity`. -/
def rowValid : Vec α → Nat → Bool
  | .const o, _ => o.isSome
  | .flat _ m, i => m.getD i false

/-- Per-row stored value, as exposed by `UnifiedVectorFormat::GetData`; for a
flat vector this is the buffer slot even when the row is null. -/
def rowData [Inhabited α] : Vec α → Nat → α
  | .const (some x), _ => x
  | .const none, _ => default
  | .flat d _, i => d.getD i default

/-- Models `UnifiedVectorFormat::validity.AllValid()` over a batch of `n`
rows. -/
def allValid (v : Vec α) (n : Nat) : Bool :=
  (List.range n).all (fun i => v.rowValid i)

end Vec

/-- The state of the designated output column after an evaluator call:
marked constant-null, marked constant with one value, or flat with per-row
optional values (`none` = row marked invalid). -/
inductive RVec (β : Type) where
  | constNull : RVec β
  | constVal : β → RVec β
  | flat : List (Option β) → RVec β
deriving DecidableEq

/-- The value an output row logically holds. -/
def RVec.row {β : Type} : RVec β → Nat → Option β
  | .constNull, _ => none
  | .constVal b, _ => some b
  | .flat rows, i => rows.getD i none

/-- Observable events of one evaluator call: a `ValidateParameters` call, a
distribution-instance construction, an operation-callback invocation, and a
random draw `dist(rng)`. -/
inductive Event where
  | validate : Event
  | construct : Event
  | op : Event
  | draw : Event
deriving DecidableEq

abbrev Trace := List Event

section Executors

variable {A B C R E : Type} [Inhabited A] [Inhabited B] [Inhabited C]

/-- Row loop of the engine's `UnaryExecutor` (external collaborator): null
input rows yield null output rows without invoking the callback; a thrown
exception aborts the whole call. -/
def unaryRows (f : A → Except E (R × Trace)) (v : Vec A) :
    List Nat → Except E (List (Option R) × Trace)
  | [] => .ok ([], [])
  | i :: is =>
    if v.rowValid i then
      match f (v.rowData i) with
      | .error e => .error e
      | .ok (r, tr) =>
        match unaryRows f v is with
        | .error e => .error e
        | .ok (rest, tr2) => .ok (some r :: rest, tr ++ tr2)
    else
      match unaryRows f v is with
      | .error e => .error e
      | .ok (rest, tr2) => .ok (none :: rest, tr2)

/-- `UnaryExecutor::Execute`: one evaluation (or a constant null) when the
input is constant, otherwise the per-row loop. -/
def unaryExec (f : A → Except E (R × Trace)) (v : Vec A) (n : Nat) :
    Except E (RVec R × Trace) :=
  if v.isConst then
    if v.isConstNull then .ok (.constNull, [])
    else
      match f v.cdata with
      | .error e => .error e
      | .ok (r, tr) => .ok (.constVal r, tr)
  else
    match unaryRows f v (List.range n) with
    | .error e => .error e
    | .ok (rows, tr) => .ok (.flat rows, tr)

/-- Row loop of the engine's `BinaryExecutor`. -/
def binaryRows (f : A → B → Except E (R × Trace)) (v1 : Vec A) (v2 : Vec B) :
    List Nat → Except E (List (Option R) × Trace)
  | [] => .ok ([], [])
  | i :: is =>
    if v1.rowValid i && v2.rowValid i then
      match f (v1.rowData i) (v2.rowData i) with
      | .error e => .error e
      | .ok (r, tr) =>
        match binaryRows f v1 v2 is with
        | .error e => .error e
        | .ok (rest, tr2) => .ok (some r :: rest, tr ++ tr2)
    else
      match binaryRows f v1 v2 is with
      | .error e => .error e
      | .ok (rest, tr2) => .ok (none :: rest, tr2)

/-- `BinaryExecutor::Execute`: single evaluation when both inputs are
constant, otherwise the per-row loop. -/
def binaryExec (f : A → B → Except E (R × Trace)) (v1 : Vec A) (v2 : Vec B)
    (n : Nat) : Except E (RVec R × Trace) :=
  if v1.isConst && v2.isConst then
    if v1.isConstNull || v2.isConstNull then .ok (.constNull, [])
    else
      match f v1.cdata v2.cdata with
      | .error e => .error e
      | .ok (r, tr) => .ok (.constVal r, tr)
  else
    match binaryRows f v1 v2 (List.range n) with
    | .error e => .error e
    | .ok (rows, tr) => .ok (.flat rows, tr)

/-- Row loop of the engine's `TernaryExecutor`. -/
def ternaryRows (f : A → B → C → Except E (R × Trace)) (v1 : Vec A)
    (v2 : Vec B) (v3 : Vec C) : List Nat → Except E (List (Option R) × Trace)
  | [] => .ok ([], [])
  | i :: is =>
    if v1.rowValid i && v2.rowValid i && v3.rowValid i then
      match f (v1.rowData i) (v2.rowData i) (v3.rowData i) with
      | .error e => .error e
      | .ok (r, tr) =>
        match ternaryRows f v1 v2 v3 is with
        | .error e => .error e
        | .ok (rest, tr2) => .ok (some r :: rest, tr ++ tr2)
    else
      match ternaryRows f v1 v2 v3 is with
      | .error e => .error e
      | .ok (rest, tr2) => .ok (none :: rest, tr2)

/-- `TernaryExecutor::Execute`: single evaluation when all three inputs are
constant, otherwise the per-row loop. -/
def ternaryExec (f : A → B → C → Except E (R × Trace)) (v1 : Vec A)
    (v2 : Vec B) (v3 : Vec C) (n : Nat) : Except E (RVec R × Trace) :=
  if v1.isConst && v2.isConst && v3.isConst then
    if v1.isConstNull || v2.isConstNull || v3.isConstNull then
      .ok (.constNull, [])
    else
      match f v1.cdata v2.cdata v3.cdata with
      | .error e => .error e
      | .ok (r, tr) => .ok (.constVal r, tr)
  else
    match ternaryRows f v1 v2 v3 (List.range n) with
    | .error e => .error e
    | .ok (rows, tr) => .ok (.flat rows, tr)

end Executors

section Evaluators

variable {P1 P2 C R E : Type} [Inhabited P1] [Inhabited P2] [Inhabited C]

/-- The per-row callback of the general path of
`DistributionCallBinaryUnary`: validate the row's shape parameters (a
failure throws), construct the distribution, apply the operation. -/
def rowValidatedBinaryUnary (validate : P1 → P2 → Except E Unit)
    (op : P1 → P2 → C → R) (p1 : P1) (p2 : P2) (c : C) :
    Except E (R × Trace) :=
  match validate p1 p2 with
  | .error e => .error e
  | .ok _ => .ok (op p1 p2 c, [Event.validate, Event.construct, Event.op])

/-- The per-row callback of the general path of
`DistributionCallUnaryUnary`. -/
def rowValidatedUnaryUnary (validate : P1 → Except E Unit)
    (op : P1 → C → R) (p1 : P1) (c : C) : Except E (R × Trace) :=
  match validate p1 with
  | .error e => .error e
  | .ok _ => .ok (op p1 c, [Event.validate, Event.construct, Event.op])

/-- Embedding of `DistributionCallBinaryUnary` (utils.hpp lines 141-204):
two shape-parameter columns plus one evaluation-point column.  A
distribution instance is its validated parameter pair; `validate`, the
construction and each operation invocation are recorded in the trace. -/
def DistributionCallBinaryUnary (validate : P1 → P2 → Except E Unit)
    (op : P1 → P2 → C → R) (v1 : Vec P1) (v2 : Vec P2) (vc : Vec C)
    (n : Nat) : Except E (RVec R × Trace) :=
  if v1.isConst && v2.isConst && vc.isConst then
    if v1.isConstNull || v2.isConstNull || vc.isConstNull then
      .ok (.constNull, [])
    else
      match validate v1.cdata v2.cdata with
      | .error e => .error e
      | .ok _ =>
        .ok (.constVal (op v1.cdata v2.cdata vc.cdata),
          [Event.validate, Event.construct, Event.op])
  else if v1.isConst && v2.isConst then
    if v1.isConstNull || v2.isConstNull then .ok (.constNull, [])
    else
      match validate v1.cdata v2.cdata with
      | .error e => .error e
      | .ok _ =>
        match unaryExec (fun c => .ok (op v1.cdata v2.cdata c, [Event.op]))
            vc n with
        | .error e => .error e
        | .ok (res, tr) =>
          .ok (res, Event.validate :: Event.construct :: tr)
  else
    ternaryExec (rowValidatedBinaryUnary validate op) v1 v2 vc n

/-- Embedding of `DistributionCallUnaryUnary` (utils.hpp lines 206-262):
one shape-parameter column plus one evaluation-point column. -/
def DistributionCallUnaryUnary (validate : P1 → Except E Unit)
    (op : P1 → C → R) (v1 : Vec P1) (vc : Vec C) (n : Nat) :
    Except E (RVec R × Trace) :=
  if v1.isConst && vc.isConst then
    if v1.isConstNull || vc.isConstNull then .ok (.constNull, [])
    else
      match validate v1.cdata with
      | .error e => .error e
      | .ok _ =>
        .ok (.constVal (op v1.cdata vc.cdata),
          [Event.validate, Event.construct, Event.op])
  else if v1.isConst then
    if v1.isConstNull then .ok (.constNull, [])
    else
      match validate v1.cdata with
      | .error e => .error e
      | .ok _ =>
        match unaryExec (fun c => .ok (op v1.cdata c, [Event.op])) vc n with
        | .error e => .error e
        | .ok (res, tr) =>
          .ok (res, Event.validate :: Event.construct :: tr)
  else
    binaryExec (rowValidatedUnaryUnary validate op) v1 vc n

end Evaluators

/-- Output state for a pair-valued ("range"/"support") operation: the
fixed-size-2 array child buffer together with how the result column is
marked.  `constPair` is the constant fast path (slots 0 and 1 of the child
written); `flat` carries the child buffer (slots `2*i` and `2*i+1` belong to
row `i`) and the per-row validity. -/
inductive PairOut (β : Type) where
  | constNull : PairOut β
  | constPair : List β → PairOut β
  | flat : List β → List Bool → PairOut β
deriving DecidableEq

section PairEvaluator

variable {P1 P2 R E : Type} [Inhabited P1] [Inhabited P2]

/-- The validity-checking per-row loop of the pair path of
`DistributionCallBinaryNone` (utils.hpp lines 331-349): rows where either
shape parameter is null are marked invalid and skipped; valid rows are
validated, a distribution is constructed, and the pair is written into
slots `2*i` and `2*i+1`. -/
def pairRowsChecked (validate : P1 → P2 → Except E Unit)
    (op : P1 → P2 → R × R) (v1 : Vec P1) (v2 : Vec P2) :
    List Nat → List R → List Bool → Except E (List R × List Bool × Trace)
  | [], buf, val => .ok (buf, val, [])
  | i :: is, buf, val =>
    if v1.rowValid i && v2.rowValid i then
      match validate (v1.rowData i) (v2.rowData i) with
      | .error e => .error e
      | .ok _ =>
        let r := op (v1.rowData i) (v2.rowData i)
        match pairRowsChecked validate op v1 v2 is
            ((buf.set (2 * i) r.1).set (2 * i + 1) r.2) val with
        | .error e => .error e
        | .ok (buf2, val2, tr) =>
          .ok (buf2, val2, Event.validate :: Event.construct :: Event.op :: tr)
    else
      pairRowsChecked validate op v1 v2 is buf (val.set i false)

/-- The no-validity-check per-row loop of the pair path of
`DistributionCallBinaryNone` (utils.hpp lines 351-361): every row is
computed from the stored buffer slots, with no null handling at all. -/
def pairRowsUnchecked (validate : P1 → P2 → Except E Unit)
    (op : P1 → P2 → R × R) (v1 : Vec P1) (v2 : Vec P2) :
    List Nat → List R → Except E (List R × Trace)
  | [], buf => .ok (buf, [])
  | i :: is, buf =>
    match validate (v1.rowData i) (v2.rowData i) with
    | .error e => .error e
    | .ok _ =>
      let r := op (v1.rowData i) (v2.rowData i)
      match pairRowsUnchecked validate op v1 v2 is
          ((buf.set (2 * i) r.1).set (2 * i + 1) r.2) with
      | .error e => .error e
      | .ok (buf2, tr) =>
        .ok (buf2, Event.validate :: Event.construct :: Event.op :: tr)

/-- Embedding of the pair-returning instantiation of
`DistributionCallBinaryNone` (utils.hpp lines 266-418).  `buf0` is the
pre-existing content of the array child buffer (length `2*n`), so that
unwritten slots are observable.  The branch choice between the checked and
unchecked loops reproduces the source condition verbatim: it reads
`dist_param1_data.validity.AllValid()` twice and never consults
`dist_param2_data` (utils.hpp lines 329 and 375). -/
def DistributionCallBinaryNonePair (validate : P1 → P2 → Except E Unit)
    (op : P1 → P2 → R × R) (v1 : Vec P1) (v2 : Vec P2) (n : Nat)
    (buf0 : List R) : Except E (PairOut R × Trace) :=
  if v1.isConst && v2.isConst then
    if v1.isConstNull || v2.isConstNull then .ok (.constNull, [])
    else
      match validate v1.cdata v2.cdata with
      | .error e => .error e
      | .ok _ =>
        let r := op v1.cdata v2.cdata
        .ok (.constPair ((buf0.set 0 r.1).set 1 r.2),
          [Event.validate, Event.construct, Event.op])
  else
    if !v1.allValid n || !v1.allValid n then
      match pairRowsChecked validate op v1 v2 (List.range n) buf0
          (List.replicate n true) with
      | .error e => .error e
      | .ok (buf, val, tr) => .ok (.flat buf val, tr)
    else
      match pairRowsUnchecked validate op v1 v2 (List.range n) buf0 with
      | .error e => .error e
      | .ok (buf, tr) => .ok (.flat buf (List.replicate n true), tr)

end PairEvaluator

section SamplingEvaluators

variable {P1 P2 R E : Type} [Inhabited P1] [Inhabited P2]

/-- Per-row loop of the non-constant path of `DistributionSampleBinary`:
the RNG state is a draw counter, `sample p1 p2 r` is the value the
generator yields in state `r`, and each draw advances the state by one.
Null rows produce null outputs without drawing. -/
def sampleRowsBinary (validate : P1 → P2 → Except E Unit)
    (sample : P1 → P2 → Nat → R) (v1 : Vec P1) (v2 : Vec P2) :
    List Nat → Nat → Except E (List (Option R) × Nat × Trace)
  | [], r => .ok ([], r, [])
  | i :: is, r =>
    if v1.rowValid i && v2.rowValid i then
      match validate (v1.rowData i) (v2.rowData i) with
      | .error e => .error e
      | .ok _ =>
        match sampleRowsBinary validate sample v1 v2 is (r + 1) with
        | .error e => .error e
        | .ok (rest, rEnd, tr) =>
          .ok (some (sample (v1.rowData i) (v2.rowData i) r) :: rest, rEnd,
            Event.validate :: Event.construct :: Event.draw :: tr)
    else
      match sampleRowsBinary validate sample v1 v2 is r with
      | .error e => .error e
      | .ok (rest, rEnd, tr) => .ok (none :: rest, rEnd, tr)

/-- Embedding of `DistributionSampleBinary` (utils.hpp lines 96-138).  When
both shape-parameter columns are constant and non-null, parameters are
validated once, one distribution instance is built, and one draw per row is
written into a flat buffer, which is marked constant only when the batch
has exactly one row. -/
def DistributionSampleBinary (validate : P1 → P2 → Except E Unit)
    (sample : P1 → P2 → Nat → R) (v1 : Vec P1) (v2 : Vec P2) (n : Nat)
    (r0 : Nat) : Except E (RVec R × Nat × Trace) :=
  if v1.isConst && v2.isConst then
    if v1.isConstNull || v2.isConstNull then .ok (.constNull, r0, [])
    else
      match validate v1.cdata v2.cdata with
      | .error e => .error e
      | .ok _ =>
        let rows := (List.range n).map fun i => some (sample v1.cdata v2.cdata (r0 + i))
        let res : RVec R :=
          if n = 1 then .constVal (sample v1.cdata v2.cdata r0) else .flat rows
        .ok (res, r0 + n,
          Event.validate :: Event.construct :: List.replicate n Event.draw)
  else
    match sampleRowsBinary validate sample v1 v2 (List.range n) r0 with
    | .error e => .error e
    | .ok (rows, rEnd, tr) => .ok (.flat rows, rEnd, tr)

/-- Per-row loop of the non-constant path of `DistributionSampleUnary`. -/
def sampleRowsUnary (validate : P1 → Except E Unit)
    (sample : P1 → Nat → R) (v1 : Vec P1) :
    List Nat → Nat → Except E (List (Option R) × Nat × Trace)
  | [], r => .ok ([], r, [])
  | i :: is, r =>
    if v1.rowValid i then
      match validate (v1.rowData i) with
      | .error e => .error e
      | .ok _ =>
        match sampleRowsUnary validate sample v1 is (r + 1) with
        | .error e => .error e
        | .ok (rest, rEnd, tr) =>
          .ok (some (sample (v1.rowData i) r) :: rest, rEnd,
            Event.validate :: Event.construct :: Event.draw :: tr)
    else
      match sampleRowsUnary validate sample v1 is r with
      | .error e => .error e
      | .ok (rest, rEnd, tr) => .ok (none :: rest, rEnd, tr)

/-- Embedding of `DistributionSampleUnary` (utils.hpp lines 56-94). -/
def DistributionSampleUnary (validate : P1 → Except E Unit)
    (sample : P1 → Nat → R) (v1 : Vec P1) (n : Nat) (r0 : Nat) :
    Except E (RVec R × Nat × Trace) :=
  if v1.isConst then
    if v1.isConstNull then .ok (.constNull, r0, [])
    else
      match validate v1.cdata with
      | .error e => .error e
      | .ok _ =>
        let rows := (List.range n).map fun i => some (sample v1.cdata (r0 + i))
        let res : RVec R :=
          if n = 1 then .constVal (sample v1.cdata r0) else .flat rows
        .ok (res, r0 + n,
          Event.validate :: Event.construct :: List.replicate n Event.draw)
  else
    match sampleRowsUnary validate sample v1 (List.range n) r0 with
    | .error e => .error e
    | .ok (rows, rEnd, tr) => .ok (.flat rows, rEnd, tr)

end SamplingEvaluators

section LegacyEvaluators

variable {P1 P2 C R E : Type} [Inhabited P1] [Inhabited P2] [Inhabited C]

/-- Embedding of `TwoParameterDistributionFunc` (quack_extension.cpp lines
49-75).  Faithful to the source: no `ValidateParameters` call anywhere, and
the constant branch does not `return` after its `UnaryExecutor`, so control
falls through to the `TernaryExecutor`, which re-evaluates and overwrites
every row (the overwritten intermediate result is discarded here, only its
trace is kept). -/
def TwoParameterDistributionFunc (op : P1 → P2 → C → R) (v1 : Vec P1)
    (v2 : Vec P2) (vc : Vec C) (n : Nat) : Except E (RVec R × Trace) :=
  let ternaryPart : Except E (RVec R × Trace) :=
    ternaryExec
      (fun p1 p2 c => .ok (op p1 p2 c, [Event.construct, Event.op]))
      v1 v2 vc n
  if v1.isConst && v2.isConst then
    if v1.isConstNull || v2.isConstNull then .ok (.constNull, [])
    else
      match unaryExec (fun c => (.ok (op v1.cdata v2.cdata c, [Event.op]) :
          Except E (R × Trace))) vc n with
      | .error e => .error e
      | .ok (_, tr1) =>
        match ternaryPart with
        | .error e => .error e
        | .ok (res, tr2) => .ok (res, Event.construct :: (tr1 ++ tr2))
  else
    ternaryPart

/-- Embedding of `SingleParameterDistributionFunc` (quack_extension.cpp
lines 100-122).  No `ValidateParameters` call before construction. -/
def SingleParameterDistributionFunc (op : P1 → C → R) (v1 : Vec P1)
    (vc : Vec C) (n : Nat) : Except E (RVec R × Trace) :=
  if v1.isConst then
    if v1.isConstNull then .ok (.constNull, [])
    else
      match unaryExec (fun c => (.ok (op v1.cdata c, [Event.op]) :
          Except E (R × Trace))) vc n with
      | .error e => .error e
      | .ok (res, tr) => .ok (res, Event.construct :: tr)
  else
    binaryExec (fun p c => .ok (op p c, [Event.construct, Event.op])) v1 vc n

/-- Embedding of `SingleParameterStatisticFunc`
(distribution_exponential.cpp lines 27-52).  No `ValidateParameters` call
before construction. -/
def SingleParameterStatisticFunc (op : P1 → R) (v1 : Vec P1) (n : Nat) :
    Except E (RVec R × Trace) :=
  if v1.isConst then
    if v1.isConstNull then .ok (.constNull, [])
    else .ok (.constVal (op v1.cdata), [Event.construct, Event.op])
  else
    unaryExec (fun p => .ok (op p, [Event.construct, Event.op])) v1 n

end LegacyEvaluators

/-- The `InvalidInputException` raised by the binomial family's
`ValidateParameters` (distribution_binomial.cpp lines 27-36), carrying the
offending parameter and its value. -/
inductive BinomialError where
  | trialsNotPositive : Int → BinomialError
  | probOutOfRange : ℚ → BinomialError
deriving DecidableEq

/-- Embedding of `distribution_traits_base::ValidateParameters` for the
binomial family (distribution_binomial.cpp lines 27-36): `trials` (an
`int64_t`) must be positive, `prob` must lie in `[0, 1]`; the trials check
runs first. -/
def binomialValidateParameters (trials : Int) (prob : ℚ) :
    Except BinomialError Unit :=
  if trials ≤ 0 then .error (.trialsNotPositive trials)
  else if prob < 0 ∨ prob > 1 then .error (.probOutOfRange prob)
  else .ok ()

/-- The global RNG seed constant (rng_utils.hpp line 11). -/
def GLOBAL_SEED : Nat := 12345

/-- The shared thread-index registry (rng_utils.cpp lines 4-6): a map from
thread identity to assigned index, plus the next index to hand out.  All
accesses happen under one mutex, so the registry evolves sequentially. -/
structure ThreadRegistry where
  map : List (Nat × Nat)
  next : Nat
deriving DecidableEq

/-- The registry at process start: empty map, `next_thread_index = 0`. -/
def ThreadRegistry.start : ThreadRegistry := ⟨[], 0⟩

/-- Embedding of `get_thread_index` (rng_utils.cpp lines 8-18): a guarded
lookup that assigns `next_thread_index++` to unseen threads. -/
def get_thread_index (tid : Nat) (s : ThreadRegistry) : Nat × ThreadRegistry :=
  match s.map.lookup tid with
  | some idx => (idx, s)
  | none => (s.next, ⟨(tid, s.next) :: s.map, s.next + 1⟩)

/-- A whole history of `get_thread_index` calls, in order. -/
def runThreads : List Nat → ThreadRegistry → ThreadRegistry
  | [], s => s
  | t :: ts, s => runThreads ts (get_thread_index t s).2

/-- An abstract Mersenne-twister state: the 32-bit seed it was constructed
from and how many draws have advanced it.  The drawn value is observed as
the `(seed, steps)` pair, which determines it. -/
structure Gen where
  seed : Nat
  steps : Nat
deriving DecidableEq

/-- Global state of the RNG provider.  Because `rng` is declared
`static thread_local` in rng_utils.hpp (line 17), every translation unit
that includes the header holds its own thread-local generator object, so
instances are keyed by the pair (translation unit, thread identity). -/
structure RngWorld where
  reg : ThreadRegistry
  gens : List ((Nat × Nat) × Gen)
deriving DecidableEq

/-- The provider state at process start. -/
def RngWorld.start : RngWorld := ⟨ThreadRegistry.start, []⟩

/-- Access to `rng` from translation unit `tu` on thread `tid`
(rng_utils.hpp lines 17-26): lazily constructs that unit's thread-local
generator on first use, seeding it with the single 32-bit value that
`seedExpand` (modelling `std::seed_seq {GLOBAL_SEED, tidx}.generate` of one
word, an external library function) produces from the global seed and the
thread's registry index; afterwards the stored generator is returned
unchanged (never reseeded). -/
def getRng (seedExpand : Nat → Nat → Nat) (tu tid : Nat) (w : RngWorld) :
    Gen × RngWorld :=
  match w.gens.lookup (tu, tid) with
  | some g => (g, w)
  | none =>
    let p := get_thread_index tid w.reg
    let g : Gen := ⟨seedExpand GLOBAL_SEED p.1, 0⟩
    (g, ⟨p.2, ((tu, tid), g) :: w.gens⟩)

/-- Replace the stored generator for one (translation unit, thread) key. -/
def setGen (key : Nat × Nat) (g : Gen) :
    List ((Nat × Nat) × Gen) → List ((Nat × Nat) × Gen)
  | [] => [(key, g)]
  | (k, g0) :: rest =>
    if k = key then (k, g) :: rest else (k, g0) :: setGen key g rest

/-- One draw `dist(rng)` issued from translation unit `tu` on thread `tid`:
observes the current generator value and advances that generator's state by
one step. -/
def drawRng (seedExpand : Nat → Nat → Nat) (tu tid : Nat) (w : RngWorld) :
    (Nat × Nat) × RngWorld :=
  let p := getRng seedExpand tu tid w
  ((p.1.seed, p.1.steps),
    ⟨p.2.reg, setGen (tu, tid) ⟨p.1.seed, p.1.steps + 1⟩ p.2.gens⟩)

/-- A concrete stand-in for the seed-sequence expansion; the theorems about
the provider do not depend on its values. -/
def seedStand : Nat → Nat → Nat := fun g t => g * 2 + t

/-! ### Helper lemmas -/

instance exceptDecEq {E α : Type} [DecidableEq E] [DecidableEq α] :
    DecidableEq (Except E α) := fun a b =>
  match a, b with
  | .ok x, .ok y =>
    if h : x = y then .isTrue (by rw [h]) else .isFalse (by simp [h])
  | .error e, .error f =>
    if h : e = f then .isTrue (by rw [h]) else .isFalse (by simp [h])
  | .ok _, .error _ => .isFalse (by simp)
  | .error _, .ok _ => .isFalse (by simp)

theorem getD_replicate_of_lt {α : Type} {n i : Nat} (a d : α) (h : i < n) :
    (List.replicate n a).getD i d = a := by
  induction n generalizing i with
  | zero => omega
  | succ m ih =>
    cases i with
    | zero => rfl
    | succ j => exact ih (by omega)

theorem getD_map_range {β : Type} (f : Nat → β) {n i : Nat} (d : β)
    (h : i < n) : ((List.range n).map f).getD i d = f i := by
  rw [List.getD_eq_getElem?_getD, List.getElem?_map, List.getElem?_range h]
  rfl

/-! ### Theorems about the claims -/

/-- C1: the claim fails on the code.  In the pair-valued path of
`DistributionCallBinaryNone`, a one-row batch whose second shape parameter
is null at row 0 while the first shape-parameter column is entirely
non-null produces a non-null output row, computed from the value stored
under the null slot, and parameter validation does run for that row — the
claim requires a null output with no validation.  Root cause: the validity
test at utils.hpp lines 329/375 reads `dist_param1_data.validity` twice and
never consults `dist_param2_data.validity`, so the unchecked loop runs. -/
theorem C1_second_param_null_not_propagated :
    DistributionCallBinaryNonePair (E := Unit) (fun _ _ => .ok ())
      (fun t p => ((0 : Int), t + p))
      (Vec.flat [(3 : Int)] [true]) (Vec.flat [(7 : Int)] [false]) 1
      [(0 : Int), 0]
    = .ok (.flat [0, 10] [true],
        [Event.validate, Event.construct, Event.op]) := by decide

/-- C3: the claim fails on the code.  `TwoParameterDistributionFunc` with
both shape-parameter columns constant and non-null evaluates the operation
twice for every row of the batch: once in the constant branch's
`UnaryExecutor` and once more in the `TernaryExecutor` it falls through to,
because the constant branch lacks a `return` (quack_extension.cpp lines
55-74).  On a two-row batch the trace holds four operation invocations
instead of two. -/
theorem C3_constant_branch_double_evaluation :
    TwoParameterDistributionFunc (E := Unit)
        (fun p1 p2 c => (p1 + p2 + c : Int))
        (Vec.const (some (1 : Int))) (Vec.const (some (2 : Int)))
        (Vec.flat [(5 : Int), 6] [true, true]) 2
      = .ok (.flat [some 8, some 9],
          [Event.construct, Event.op, Event.op, Event.construct, Event.op,
           Event.construct, Event.op]) ∧
    ([Event.construct, Event.op, Event.op, Event.construct, Event.op,
      Event.construct, Event.op].count Event.op) = 2 * 2 := by decide

/-- C4: the claim fails on the code.  `TwoParameterDistributionFunc`,
`SingleParameterDistributionFunc` and `SingleParameterStatisticFunc` all
construct their distribution instance directly from per-row data without
ever calling `ValidateParameters`: on a batch carrying an out-of-domain
parameter value (a negative scale/rate), each trace contains a construction
event and no validation event. -/
theorem C4_construction_without_validation :
    (TwoParameterDistributionFunc (E := Unit)
        (fun p1 p2 c => (p1 + p2 + c : Int))
        (Vec.flat [(0 : Int)] [true]) (Vec.flat [(-1 : Int)] [true])
        (Vec.flat [(1 : Int)] [true]) 1
      = .ok (.flat [some 0], [Event.construct, Event.op])) ∧
    (SingleParameterDistributionFunc (E := Unit) (fun p c => (p + c : Int))
        (Vec.flat [(-1 : Int)] [true]) (Vec.flat [(1 : Int)] [true]) 1
      = .ok (.flat [some 0], [Event.construct, Event.op])) ∧
    (SingleParameterStatisticFunc (E := Unit) (fun p => (p : Int))
        (Vec.flat [(-1 : Int)] [true]) 1
      = .ok (.flat [some (-1)], [Event.construct, Event.op])) ∧
    ([Event.construct, Event.op].count Event.validate = 0) := by decide

/-- C9: the claim fails on the code.  First two conjuncts show the intended
behaviour on the checked loop: each computed row writes exactly its two
child-buffer slots `2*i` (pair's first component) and `2*i+1` (second
component), and a row with a null first shape parameter is marked invalid
with both its slots left at their prior contents.  The third conjunct is
the violation: when only the second shape-parameter column carries a null,
the row is computed anyway — slots written from the value stored under the
null, row left valid — because the validity test at utils.hpp lines 329/375
never consults `dist_param2_data`. -/
theorem C9_pair_slot_writing_and_null_marking :
    (DistributionCallBinaryNonePair (E := Unit) (fun _ _ => .ok ())
        (fun a b => ((a : Int), (b : Int)))
        (Vec.flat [(10 : Int), 20] [true, true])
        (Vec.flat [(1 : Int), 2] [true, true]) 2 [(9 : Int), 9, 9, 9]
      = .ok (.flat [10, 1, 20, 2] [true, true],
          [Event.validate, Event.construct, Event.op,
           Event.validate, Event.construct, Event.op])) ∧
    (DistributionCallBinaryNonePair (E := Unit) (fun _ _ => .ok ())
        (fun a b => ((a : Int), (b : Int)))
        (Vec.flat [(10 : Int), 20] [false, true])
        (Vec.flat [(1 : Int), 2] [true, true]) 2 [(9 : Int), 9, 9, 9]
      = .ok (.flat [9, 9, 20, 2] [false, true],
          [Event.validate, Event.construct, Event.op])) ∧
    (DistributionCallBinaryNonePair (E := Unit) (fun _ _ => .ok ())
        (fun a b => ((a : Int), (b : Int)))
        (Vec.flat [(10 : Int), 20] [true, true])
        (Vec.flat [(1 : Int), 2] [false, true]) 2 [(9 : Int), 9, 9, 9]
      = .ok (.flat [10, 1, 20, 2] [true, true],
          [Event.validate, Event.construct, Event.op,
           Event.validate, Event.construct, Event.op])) := by decide

/-- C7: counterexample to the claim as stated.  After one draw on thread 0
issued through translation unit 0, a draw issued through translation unit 1
on the same thread repeats the very first drawn value — it observes a
fresh, identically seeded generator instead of the advanced shared state
the claim requires — and at the moment of the first draw no generator
exists yet for (unit 1, thread 0), so the state two calls from the same
thread observe depends on the translation unit.  Root cause: `rng` is
declared `static thread_local` in rng_utils.hpp line 17, giving every
translation unit that includes the header its own per-thread generator. -/
theorem C7_not_one_generator_per_thread :
    ((drawRng seedStand 1 0 (drawRng seedStand 0 0 RngWorld.start).2).1
      = (drawRng seedStand 0 0 RngWorld.start).1) ∧
    ((drawRng seedStand 1 0 (drawRng seedStand 0 0 RngWorld.start).2).1
      ≠ (drawRng seedStand 0 0 (drawRng seedStand 0 0 RngWorld.start).2).1) ∧
    ((drawRng seedStand 0 0 RngWorld.start).2.gens.lookup (1, 0) = none) := by
  decide

/-! ### Thread-index registry lemmas (C8) -/

theorem lookup_none_forall {l : List (Nat × Nat)} {t : Nat}
    (h : l.lookup t = none) : ∀ p ∈ l, p.1 ≠ t := by
  induction l with
  | nil => simp
  | cons hd tl ih =>
    obtain ⟨k, v⟩ := hd
    intro p hp
    by_cases hk : t = k
    · subst hk
      simp [List.lookup] at h
    · rw [List.lookup, beq_eq_false_iff_ne.mpr hk] at h
      rcases List.mem_cons.mp hp with h1 | h1
      · subst h1
        simpa using fun he => hk he.symm
      · exact ih h p h1

theorem lookup_some_mem {l : List (Nat × Nat)} {t i : Nat}
    (h : l.lookup t = some i) : (t, i) ∈ l := by
  induction l with
  | nil => simp [List.lookup] at h
  | cons hd tl ih =>
    obtain ⟨k, v⟩ := hd
    by_cases hk : t = k
    · subst hk
      rw [List.lookup] at h
      simp only [beq_self_eq_true] at h
      obtain rfl : v = i := by simpa using h
      exact List.mem_cons_self _ _
    · rw [List.lookup, beq_eq_false_iff_ne.mpr hk] at h
      exact List.mem_cons_of_mem _ (ih h)

/-- The registry invariant: thread identities are distinct keys and the
assigned indices are exactly `{0, …, next-1}` (stored newest first). -/
def RegInv (s : ThreadRegistry) : Prop :=
  (s.map.map Prod.fst).Nodup ∧
    s.map.map Prod.snd = (List.range s.next).reverse

theorem regInv_start : RegInv ThreadRegistry.start := by
  constructor <;> simp [ThreadRegistry.start]

theorem regInv_step {s : ThreadRegistry} (t : Nat) (h : RegInv s) :
    RegInv (get_thread_index t s).2 := by
  unfold get_thread_index
  cases hl : s.map.lookup t with
  | some i => simpa using h
  | none =>
    refine ⟨?_, ?_⟩
    · simp only [List.map_cons]
      refine List.nodup_cons.mpr ⟨fun hm => ?_, h.1⟩
      obtain ⟨p, hp, hpt⟩ := List.mem_map.mp hm
      exact lookup_none_forall hl p hp hpt
    · simp only [List.map_cons, h.2, List.range_succ, List.reverse_append,
        List.reverse_cons, List.reverse_nil, List.nil_append,
        List.singleton_append]

theorem regInv_run (ts : List Nat) (s : ThreadRegistry) (h : RegInv s) :
    RegInv (runThreads ts s) := by
  induction ts generalizing s with
  | nil => exact h
  | cons t ts ih => exact ih _ (regInv_step t h)

theorem mem_map_step {s : ThreadRegistry} {p : Nat × Nat} (t : Nat)
    (h : p ∈ s.map) : p ∈ (get_thread_index t s).2.map := by
  unfold get_thread_index
  cases hl : s.map.lookup t with
  | some i => simpa using h
  | none => exact List.mem_cons_of_mem _ h

theorem mem_map_run (ts : List Nat) {s : ThreadRegistry} {p : Nat × Nat}
    (h : p ∈ s.map) : p ∈ (runThreads ts s).map := by
  induction ts generalizing s with
  | nil => exact h
  | cons t ts ih => exact ih (mem_map_step t h)

theorem lookup_some_step {s : ThreadRegistry} {t i : Nat} (u : Nat)
    (h : s.map.lookup t = some i) :
    (get_thread_index u s).2.map.lookup t = some i := by
  unfold get_thread_index
  cases hl : s.map.lookup u with
  | some j => simpa using h
  | none =>
    have htu : t ≠ u := by
      intro he
      subst he
      rw [h] at hl
      exact Option.noConfusion hl
    rw [List.lookup, beq_eq_false_iff_ne.mpr htu]
    exact h

theorem lookup_some_run (ts : List Nat) {s : ThreadRegistry} {t i : Nat}
    (h : s.map.lookup t = some i) :
    (runThreads ts s).map.lookup t = some i := by
  induction ts generalizing s with
  | nil => exact h
  | cons u ts ih => exact ih (lookup_some_step u h)

/-- C8: the thread-index registry.  A first call from an unseen thread
returns `next_thread_index` and prepends the new entry while bumping the
counter; a call from a seen thread returns its stored index and leaves the
registry untouched; an index, once assigned, is returned unchanged by every
later call no matter how many other threads register in between; after any
call history starting from the empty registry, the keys are pairwise
distinct and the assigned indices are exactly the dense set
`{0, …, K-1}` where `K` is both the number of registered threads and the
counter value; and registry entries are never removed. -/
theorem C8_thread_index_assignment :
    (∀ (s : ThreadRegistry) (t : Nat), s.map.lookup t = none →
      get_thread_index t s = (s.next, ⟨(t, s.next) :: s.map, s.next + 1⟩)) ∧
    (∀ (s : ThreadRegistry) (t i : Nat), s.map.lookup t = some i →
      get_thread_index t s = (i, s)) ∧
    (∀ (ts : List Nat) (s : ThreadRegistry) (t i : Nat),
      s.map.lookup t = some i →
      (get_thread_index t (runThreads ts s)).1 = i) ∧
    (∀ ts : List Nat,
      ((runThreads ts ThreadRegistry.start).map.map Prod.fst).Nodup ∧
      (runThreads ts ThreadRegistry.start).map.map Prod.snd
        = (List.range (runThreads ts ThreadRegistry.start).next).reverse ∧
      (runThreads ts ThreadRegistry.start).map.length
        = (runThreads ts ThreadRegistry.start).next) ∧
    (∀ (ts : List Nat) (s : ThreadRegistry) (p : Nat × Nat),
      p ∈ s.map → p ∈ (runThreads ts s).map) := by
  refine ⟨?_, ?_, ?_, ?_, ?_⟩
  · intro s t h
    unfold get_thread_index
    rw [h]
  · intro s t i h
    unfold get_thread_index
    rw [h]
  · intro ts s t i h
    have h2 := lookup_some_run ts h
    unfold get_thread_index
    rw [h2]
  · intro ts
    have h := regInv_run ts ThreadRegistry.start regInv_start
    refine ⟨h.1, h.2, ?_⟩
    have hlen := congrArg List.length h.2
    simpa using hlen
  · intro ts s p h
    exact mem_map_run ts h

/-- C8 witness: the registry facts applied to a concrete history.  Thread 7
gets index 0 on first sight of the empty registry; after the history
`[7, 9, 7, 4]` the stored indices are `{0, 1, 2}` and thread 7 still maps
to 0. -/
theorem C8_thread_index_assignment_witness :
    get_thread_index 7 ThreadRegistry.start
      = (0, ⟨[(7, 0)], 1⟩) ∧
    (get_thread_index 7 (runThreads [9, 4] ⟨[(7, 0)], 1⟩)).1 = 0 ∧
    ((runThreads [7, 9, 7, 4] ThreadRegistry.start).map.map Prod.fst).Nodup := by
  refine ⟨?_, ?_, ?_⟩
  · exact C8_thread_index_assignment.1 ThreadRegistry.start 7 (by decide)
  · exact C8_thread_index_assignment.2.2.1 [9, 4] ⟨[(7, 0)], 1⟩ 7 0 (by decide)
  · exact (C8_thread_index_assignment.2.2.2.1 [7, 9, 7, 4]).1

/-! ### RNG provider lemmas (C7) -/

theorem getRng_some {f : Nat → Nat → Nat} {tu tid : Nat} {w : RngWorld}
    {g : Gen} (h : w.gens.lookup (tu, tid) = some g) :
    getRng f tu tid w = (g, w) := by
  unfold getRng
  rw [h]

theorem getRng_none {f : Nat → Nat → Nat} {tu tid : Nat} {w : RngWorld}
    (h : w.gens.lookup (tu, tid) = none) :
    getRng f tu tid w
      = (⟨f GLOBAL_SEED (get_thread_index tid w.reg).1, 0⟩,
         ⟨(get_thread_index tid w.reg).2,
          ((tu, tid), ⟨f GLOBAL_SEED (get_thread_index tid w.reg).1, 0⟩)
            :: w.gens⟩) := by
  unfold getRng
  rw [h]

theorem lookup_setGen_self (key : Nat × Nat) (g : Gen)
    (l : List ((Nat × Nat) × Gen)) : (setGen key g l).lookup key = some g := by
  induction l with
  | nil => simp [setGen, List.lookup]
  | cons hd tl ih =>
    obtain ⟨k, g0⟩ := hd
    by_cases hk : k = key
    · subst hk
      rw [setGen, if_pos rfl, List.lookup]
      simp
    · rw [setGen, if_neg hk, List.lookup,
        beq_eq_false_iff_ne.mpr (fun he => hk he.symm)]
      exact ih

/-- C7 (amended): the RNG provider keeps exactly one generator per
(translation unit, thread) pair.  A stored generator is returned unchanged
(no reseeding ever happens); a first access from a pair lazily constructs
the generator, seeded with the single 32-bit value expanded from the global
seed and the calling thread's registry index; a draw advances exactly that
pair's generator by one step, so the next call from the same thread through
the same translation unit observes the advanced state; and two consecutive
accesses from one (translation unit, thread) pair observe the same
generator. -/
theorem C7_generator_per_unit_and_thread :
    (∀ (f : Nat → Nat → Nat) (tu tid : Nat) (w : RngWorld) (g : Gen),
      w.gens.lookup (tu, tid) = some g → getRng f tu tid w = (g, w)) ∧
    (∀ (f : Nat → Nat → Nat) (tu tid : Nat) (w : RngWorld),
      w.gens.lookup (tu, tid) = none →
      getRng f tu tid w
        = (⟨f GLOBAL_SEED (get_thread_index tid w.reg).1, 0⟩,
           ⟨(get_thread_index tid w.reg).2,
            ((tu, tid), ⟨f GLOBAL_SEED (get_thread_index tid w.reg).1, 0⟩)
              :: w.gens⟩)) ∧
    (∀ (f : Nat → Nat → Nat) (tu tid : Nat) (w : RngWorld),
      (drawRng f tu tid w).2.gens.lookup (tu, tid)
        = some ⟨(getRng f tu tid w).1.seed, (getRng f tu tid w).1.steps + 1⟩) ∧
    (∀ (f : Nat → Nat → Nat) (tu tid : Nat) (w : RngWorld),
      (getRng f tu tid ((getRng f tu tid w).2)).1
        = (getRng f tu tid w).1) := by
  refine ⟨?_, ?_, ?_, ?_⟩
  · intro f tu tid w g h
    exact getRng_some h
  · intro f tu tid w h
    exact getRng_none h
  · intro f tu tid w
    unfold drawRng
    exact lookup_setGen_self _ _ _
  · intro f tu tid w
    cases hl : w.gens.lookup (tu, tid) with
    | some g => simp [getRng_some (f := f) hl]
    | none =>
      rw [getRng_none (f := f) hl]
      have h2 : (RngWorld.mk (get_thread_index tid w.reg).2
          (((tu, tid),
            (⟨f GLOBAL_SEED (get_thread_index tid w.reg).1, 0⟩ : Gen))
              :: w.gens)).gens.lookup (tu, tid)
          = some ⟨f GLOBAL_SEED (get_thread_index tid w.reg).1, 0⟩ := by
        simp [List.lookup]
      rw [getRng_some (f := f) h2]

/-- C7 witness: the amended facts at a concrete input — a first access from
translation unit 5 on thread 3 lazily builds the generator from the global
seed and the thread index, and a second access observes the same
generator. -/
theorem C7_generator_per_unit_and_thread_witness :
    (getRng seedStand 5 3 RngWorld.start
      = (⟨seedStand GLOBAL_SEED (get_thread_index 3 RngWorld.start.reg).1, 0⟩,
         ⟨(get_thread_index 3 RngWorld.start.reg).2,
          ((5, 3),
            ⟨seedStand GLOBAL_SEED (get_thread_index 3 RngWorld.start.reg).1,
             0⟩) :: RngWorld.start.gens⟩)) ∧
    (getRng seedStand 5 3 ((getRng seedStand 5 3 RngWorld.start).2)).1
      = (getRng seedStand 5 3 RngWorld.start).1 :=
  ⟨C7_generator_per_unit_and_thread.2.1 seedStand 5 3 RngWorld.start
      (by decide),
   C7_generator_per_unit_and_thread.2.2.2 seedStand 5 3 RngWorld.start⟩

/-! ### Path-equivalence lemmas (C2) -/

theorem ternaryRows_all_same {A B C R E : Type} [Inhabited A] [Inhabited B]
    [Inhabited C] (f : A → B → C → Except E (R × Trace)) (v1 : Vec A)
    (v2 : Vec B) (v3 : Vec C) (a : A) (b : B) (c : C) (r : R) (t : Trace)
    (hf : f a b c = .ok (r, t)) :
    ∀ is : List Nat,
      (∀ i ∈ is, v1.rowValid i = true ∧ v2.rowValid i = true ∧
        v3.rowValid i = true ∧ v1.rowData i = a ∧ v2.rowData i = b ∧
        v3.rowData i = c) →
      ∃ tr, ternaryRows f v1 v2 v3 is
        = .ok (is.map (fun _ => some r), tr) := by
  intro is
  induction is with
  | nil => exact fun _ => ⟨[], rfl⟩
  | cons j js ih =>
    intro h
    obtain ⟨h1, h2, h3, h4, h5, h6⟩ := h j (List.mem_cons_self _ _)
    obtain ⟨tr, htr⟩ := ih (fun i hi => h i (List.mem_cons_of_mem _ hi))
    refine ⟨t ++ tr, ?_⟩
    simp only [ternaryRows, h1, h2, h3, h4, h5, h6, Bool.and_self, if_true,
      hf, htr, List.map_cons]

theorem binaryRows_all_same {A B R E : Type} [Inhabited A] [Inhabited B]
    (f : A → B → Except E (R × Trace)) (v1 : Vec A) (v2 : Vec B) (a : A)
    (b : B) (r : R) (t : Trace) (hf : f a b = .ok (r, t)) :
    ∀ is : List Nat,
      (∀ i ∈ is, v1.rowValid i = true ∧ v2.rowValid i = true ∧
        v1.rowData i = a ∧ v2.rowData i = b) →
      ∃ tr, binaryRows f v1 v2 is = .ok (is.map (fun _ => some r), tr) := by
  intro is
  induction is with
  | nil => exact fun _ => ⟨[], rfl⟩
  | cons j js ih =>
    intro h
    obtain ⟨h1, h2, h3, h4⟩ := h j (List.mem_cons_self _ _)
    obtain ⟨tr, htr⟩ := ih (fun i hi => h i (List.mem_cons_of_mem _ hi))
    refine ⟨t ++ tr, ?_⟩
    simp only [binaryRows, h1, h2, h3, h4, Bool.and_self, if_true, hf, htr,
      List.map_cons]

/-- C2: for the closed-form evaluators `DistributionCallBinaryUnary` and
`DistributionCallUnaryUnary`, a batch in which every row carries the same
(valid) shape-parameter values and evaluation-point value yields exactly
the same per-row numeric output whether the columns are presented as
constant vectors (constant fast path) or as materialized per-row vectors
(general per-row path). -/
theorem C2_constant_vs_perrow_path {P1 P2 C R E : Type} [Inhabited P1]
    [Inhabited P2] [Inhabited C] (validate2 : P1 → P2 → Except E Unit)
    (op2 : P1 → P2 → C → R) (validate1 : P1 → Except E Unit)
    (op1 : P1 → C → R) (p1 : P1) (p2 : P2) (c : C) (n : Nat)
    (hv2 : validate2 p1 p2 = .ok ()) (hv1 : validate1 p1 = .ok ()) :
    (∃ rc trc rf trf,
      DistributionCallBinaryUnary validate2 op2 (Vec.const (some p1))
        (Vec.const (some p2)) (Vec.const (some c)) n = .ok (rc, trc) ∧
      DistributionCallBinaryUnary validate2 op2
        (Vec.flat (List.replicate n p1) (List.replicate n true))
        (Vec.flat (List.replicate n p2) (List.replicate n true))
        (Vec.flat (List.replicate n c) (List.replicate n true)) n
        = .ok (rf, trf) ∧
      ∀ i, i < n →
        rc.row i = some (op2 p1 p2 c) ∧ rf.row i = some (op2 p1 p2 c)) ∧
    (∃ rc trc rf trf,
      DistributionCallUnaryUnary validate1 op1 (Vec.const (some p1))
        (Vec.const (some c)) n = .ok (rc, trc) ∧
      DistributionCallUnaryUnary validate1 op1
        (Vec.flat (List.replicate n p1) (List.replicate n true))
        (Vec.flat (List.replicate n c) (List.replicate n true)) n
        = .ok (rf, trf) ∧
      ∀ i, i < n →
        rc.row i = some (op1 p1 c) ∧ rf.row i = some (op1 p1 c)) := by
  constructor
  · obtain ⟨tr, htr⟩ := ternaryRows_all_same
      (rowValidatedBinaryUnary validate2 op2)
      (Vec.flat (List.replicate n p1) (List.replicate n true))
      (Vec.flat (List.replicate n p2) (List.replicate n true))
      (Vec.flat (List.replicate n c) (List.replicate n true))
      p1 p2 c (op2 p1 p2 c) [Event.validate, Event.construct, Event.op]
      (by simp [rowValidatedBinaryUnary, hv2]) (List.range n)
      (by
        intro i hi
        have hin : i < n := List.mem_range.mp hi
        refine ⟨?_, ?_, ?_, ?_, ?_, ?_⟩ <;>
          simp [Vec.rowValid, Vec.rowData, List.getD,
            List.getElem?_replicate, hin])
    refine ⟨.constVal (op2 p1 p2 c),
      [Event.validate, Event.construct, Event.op],
      .flat ((List.range n).map (fun _ => some (op2 p1 p2 c))), tr,
      ?_, ?_, ?_⟩
    · simp [DistributionCallBinaryUnary, Vec.isConst, Vec.isConstNull,
        Vec.cdata, hv2]
    · simp only [DistributionCallBinaryUnary, Vec.isConst, Bool.false_and,
        Bool.and_false, ternaryExec, htr]
      simp
    · intro i hin
      refine ⟨rfl, ?_⟩
      simp [RVec.row, List.getD, List.getElem?_replicate, hin]
  · obtain ⟨tr, htr⟩ := binaryRows_all_same
      (rowValidatedUnaryUnary validate1 op1)
      (Vec.flat (List.replicate n p1) (List.replicate n true))
      (Vec.flat (List.replicate n c) (List.replicate n true))
      p1 c (op1 p1 c) [Event.validate, Event.construct, Event.op]
      (by simp [rowValidatedUnaryUnary, hv1]) (List.range n)
      (by
        intro i hi
        have hin : i < n := List.mem_range.mp hi
        refine ⟨?_, ?_, ?_, ?_⟩ <;>
          simp [Vec.rowValid, Vec.rowData, List.getD,
            List.getElem?_replicate, hin])
    refine ⟨.constVal (op1 p1 c),
      [Event.validate, Event.construct, Event.op],
      .flat ((List.range n).map (fun _ => some (op1 p1 c))), tr,
      ?_, ?_, ?_⟩
    · simp [DistributionCallUnaryUnary, Vec.isConst, Vec.isConstNull,
        Vec.cdata, hv1]
    · simp only [DistributionCallUnaryUnary, Vec.isConst, Bool.false_and,
        Bool.and_false, binaryExec, htr]
      simp
    · intro i hin
      refine ⟨rfl, ?_⟩
      simp [RVec.row, List.getD, List.getElem?_replicate, hin]

/-- C2 witness: the path equivalence at a concrete batch of five identical
rows. -/
theorem C2_constant_vs_perrow_path_witness :
    ∃ rc trc rf trf,
      DistributionCallBinaryUnary (E := Unit) (fun _ _ => .ok ())
        (fun p1 p2 c => (p1 + p2 + c : Int)) (Vec.const (some 1))
        (Vec.const (some 2)) (Vec.const (some 3)) 5 = .ok (rc, trc) ∧
      DistributionCallBinaryUnary (E := Unit) (fun _ _ => .ok ())
        (fun p1 p2 c => (p1 + p2 + c : Int))
        (Vec.flat (List.replicate 5 1) (List.replicate 5 true))
        (Vec.flat (List.replicate 5 2) (List.replicate 5 true))
        (Vec.flat (List.replicate 5 3) (List.replicate 5 true)) 5
        = .ok (rf, trf) ∧
      ∀ i, i < 5 → rc.row i = some 6 ∧ rf.row i = some 6 :=
  (C2_constant_vs_perrow_path (E := Unit) (fun _ _ => .ok ())
    (fun p1 p2 c => (p1 + p2 + c : Int)) (fun _ => .ok ())
    (fun p c => p + c) 1 2 3 5 rfl rfl).1

/-! ### Validation and batch-abort lemmas (C5) -/

theorem ternaryRows_ok_of_valid {A B C R E : Type} [Inhabited A]
    [Inhabited B] [Inhabited C] (f : A → B → C → Except E (R × Trace))
    (v1 : Vec A) (v2 : Vec B) (v3 : Vec C) :
    ∀ (is : List Nat) (out : List (Option R) × Trace),
      ternaryRows f v1 v2 v3 is = .ok out →
      ∀ i ∈ is, (v1.rowValid i && v2.rowValid i && v3.rowValid i) = true →
        ∃ r, f (v1.rowData i) (v2.rowData i) (v3.rowData i) = .ok r := by
  intro is
  induction is with
  | nil =>
    intro out h i hi
    simp at hi
  | cons j js ih =>
    intro out h i hi hvalid
    simp only [ternaryRows] at h
    by_cases hj : (v1.rowValid j && v2.rowValid j && v3.rowValid j) = true
    · rw [if_pos hj] at h
      cases hfj : f (v1.rowData j) (v2.rowData j) (v3.rowData j) with
      | error e =>
        rw [hfj] at h
        simp at h
      | ok r =>
        rcases List.mem_cons.mp hi with rfl | hmem
        · exact ⟨r, hfj⟩
        · rw [hfj] at h
          cases hrec : ternaryRows f v1 v2 v3 js with
          | error e =>
            rw [hrec] at h
            simp at h
          | ok out2 => exact ih out2 hrec i hmem hvalid
    · rw [if_neg hj] at h
      rcases List.mem_cons.mp hi with rfl | hmem
      · exact absurd hvalid hj
      · cases hrec : ternaryRows f v1 v2 v3 js with
        | error e =>
          rw [hrec] at h
          simp at h
        | ok out2 => exact ih out2 hrec i hmem hvalid

/-- C5: the binomial family's `ValidateParameters` accepts exactly the
in-domain parameters (`trials > 0`, `prob ∈ [0,1]`, so the boundary values
`prob = 0`, `prob = 1`, `trials = 1` are accepted); it rejects
`trials ≤ 0` with an `InvalidInput` error carrying the trials value, and an
out-of-range probability (with positive trials) with an error carrying the
probability value — every raised error names one of the two offending
parameters with its value.  Moreover a batch evaluated through
`DistributionCallBinaryUnary` aborts with an error as soon as some row
whose inputs are all non-null carries parameters that validation rejects:
the row is not silently skipped. -/
theorem C5_binomial_validation :
    (∀ (t : Int) (p : ℚ),
      binomialValidateParameters t p = .ok () ↔ 0 < t ∧ 0 ≤ p ∧ p ≤ 1) ∧
    (∀ (t : Int) (p : ℚ),
      binomialValidateParameters t p = .error (.trialsNotPositive t) ↔
        t ≤ 0) ∧
    (∀ (t : Int) (p : ℚ),
      binomialValidateParameters t p = .error (.probOutOfRange p) ↔
        0 < t ∧ (p < 0 ∨ 1 < p)) ∧
    (∀ (t : Int) (p : ℚ) (e : BinomialError),
      binomialValidateParameters t p = .error e →
        e = .trialsNotPositive t ∨ e = .probOutOfRange p) ∧
    (∀ (op : Int → ℚ → ℚ → ℚ) (d1 : List Int) (m1 : List Bool) (v2 : Vec ℚ)
      (vc : Vec ℚ) (n i : Nat), i < n →
      (Vec.flat d1 m1).rowValid i = true → v2.rowValid i = true →
      vc.rowValid i = true →
      binomialValidateParameters ((Vec.flat d1 m1).rowData i)
        (v2.rowData i) ≠ .ok () →
      ∃ e, DistributionCallBinaryUnary binomialValidateParameters op
        (Vec.flat d1 m1) v2 vc n = .error e) := by
  refine ⟨?_, ?_, ?_, ?_, ?_⟩
  · intro t p
    unfold binomialValidateParameters
    by_cases h1 : t ≤ 0
    · rw [if_pos h1]
      constructor
      · intro h
        exact Except.noConfusion h
      · rintro ⟨ht, -, -⟩
        omega
    · rw [if_neg h1]
      by_cases h2 : p < 0 ∨ p > 1
      · rw [if_pos h2]
        constructor
        · intro h
          exact Except.noConfusion h
        · rintro ⟨-, hp0, hp1⟩
          rcases h2 with hh | hh
          · exact absurd hh (not_lt.mpr hp0)
          · exact absurd hh (not_lt.mpr hp1)
      · rw [if_neg h2]
        rw [not_or] at h2
        exact ⟨fun _ => ⟨by omega, not_lt.mp h2.1, not_lt.mp h2.2⟩,
          fun _ => rfl⟩
  · intro t p
    unfold binomialValidateParameters
    by_cases h1 : t ≤ 0
    · rw [if_pos h1]
      exact ⟨fun _ => h1, fun _ => rfl⟩
    · rw [if_neg h1]
      by_cases h2 : p < 0 ∨ p > 1
      · rw [if_pos h2]
        constructor
        · intro h
          simp at h
        · intro h
          exact absurd h h1
      · rw [if_neg h2]
        constructor
        · intro h
          exact Except.noConfusion h
        · intro h
          exact absurd h h1
  · intro t p
    unfold binomialValidateParameters
    by_cases h1 : t ≤ 0
    · rw [if_pos h1]
      constructor
      · intro h
        simp at h
      · rintro ⟨ht, -⟩
        omega
    · rw [if_neg h1]
      by_cases h2 : p < 0 ∨ p > 1
      · rw [if_pos h2]
        exact ⟨fun _ => ⟨by omega, h2⟩, fun _ => rfl⟩
      · rw [if_neg h2]
        constructor
        · intro h
          exact Except.noConfusion h
        · rintro ⟨-, hp⟩
          exact absurd hp h2
  · intro t p e h
    unfold binomialValidateParameters at h
    by_cases h1 : t ≤ 0
    · rw [if_pos h1] at h
      exact Or.inl (Except.error.inj h).symm
    · rw [if_neg h1] at h
      by_cases h2 : p < 0 ∨ p > 1
      · rw [if_pos h2] at h
        exact Or.inr (Except.error.inj h).symm
      · rw [if_neg h2] at h
        exact Except.noConfusion h
  · intro op d1 m1 v2 vc n i hin hv1 hv2c hvcc hne
    cases hrun : ternaryRows
        (rowValidatedBinaryUnary binomialValidateParameters op)
        (Vec.flat d1 m1) v2 vc (List.range n) with
    | error e =>
      refine ⟨e, ?_⟩
      simp [DistributionCallBinaryUnary, ternaryExec, Vec.isConst, hrun]
    | ok out =>
      exfalso
      obtain ⟨r, hfok⟩ := ternaryRows_ok_of_valid _ _ _ _ (List.range n) out
        hrun i (List.mem_range.mpr hin) (by simp [hv1, hv2c, hvcc])
      unfold rowValidatedBinaryUnary at hfok
      cases hval : binomialValidateParameters ((Vec.flat d1 m1).rowData i)
          (v2.rowData i) with
      | ok u =>
        cases u
        exact hne hval
      | error e0 =>
        rw [hval] at hfok
        simp at hfok

/-- C5 witness: boundary-valid parameters accepted, invalid ones rejected
with the named error, and a one-row batch with `trials = 0` aborting the
whole evaluator call. -/
theorem C5_binomial_validation_witness :
    binomialValidateParameters 1 0 = .ok () ∧
    binomialValidateParameters 1 1 = .ok () ∧
    binomialValidateParameters 0 1 = .error (.trialsNotPositive 0) ∧
    binomialValidateParameters 1 2 = .error (.probOutOfRange 2) ∧
    ∃ e, DistributionCallBinaryUnary binomialValidateParameters
      (fun _ _ x => (x : ℚ)) (Vec.flat [(0 : Int)] [true])
      (Vec.const (some (1 : ℚ))) (Vec.const (some (0 : ℚ))) 1 = .error e :=
  ⟨(C5_binomial_validation.1 1 0).mpr (by decide),
   (C5_binomial_validation.1 1 1).mpr (by decide),
   (C5_binomial_validation.2.1 0 1).mpr (by decide),
   (C5_binomial_validation.2.2.1 1 2).mpr (by decide),
   C5_binomial_validation.2.2.2.2 (fun _ _ x => x) [(0 : Int)] [true]
     (Vec.const (some (1 : ℚ))) (Vec.const (some (0 : ℚ))) 1 0 (by decide)
     (by decide) (by decide) (by decide) (by decide)⟩

/-! ### Sampling-evaluator lemmas (C6, C10) -/

theorem sampleRowsBinary_ok_spec {P1 P2 R E : Type} [Inhabited P1]
    [Inhabited P2] (validate : P1 → P2 → Except E Unit)
    (sample : P1 → P2 → Nat → R) (v1 : Vec P1) (v2 : Vec P2) :
    ∀ (is : List Nat) (r : Nat) (rows : List (Option R)) (rEnd : Nat)
      (tr : Trace),
      sampleRowsBinary validate sample v1 v2 is r = .ok (rows, rEnd, tr) →
      rows.length = is.length ∧
      tr.count Event.draw
        = is.countP (fun i => v1.rowValid i && v2.rowValid i) ∧
      rEnd = r + is.countP (fun i => v1.rowValid i && v2.rowValid i) ∧
      ∀ k, k < is.length →
        (rows.getD k none).isSome
          = (v1.rowValid (is.getD k 0) && v2.rowValid (is.getD k 0)) := by
  intro is
  induction is with
  | nil =>
    intro r rows rEnd tr h
    simp only [sampleRowsBinary, Except.ok.injEq, Prod.mk.injEq] at h
    obtain ⟨rfl, rfl, rfl⟩ := h
    simp
  | cons j js ih =>
    intro r rows rEnd tr h
    simp only [sampleRowsBinary] at h
    by_cases hj : (v1.rowValid j && v2.rowValid j) = true
    · rw [if_pos hj] at h
      cases hv : validate (v1.rowData j) (v2.rowData j) with
      | error e =>
        rw [hv] at h
        simp at h
      | ok u =>
        rw [hv] at h
        cases hrec : sampleRowsBinary validate sample v1 v2 js (r + 1) with
        | error e =>
          rw [hrec] at h
          simp at h
        | ok triple =>
          obtain ⟨rest, rEnd2, tr2⟩ := triple
          rw [hrec] at h
          simp only [Except.ok.injEq, Prod.mk.injEq] at h
          obtain ⟨rfl, rfl, rfl⟩ := h
          obtain ⟨hl, hc, he, hk⟩ := ih (r + 1) rest rEnd2 tr2 hrec
          refine ⟨by simp [hl], ?_, ?_, ?_⟩
          · simp [List.count_cons, List.countP_cons, hj, hc]
          · simp [List.countP_cons, hj, he]
            omega
          · intro k hklt
            cases k with
            | zero => simp [hj]
            | succ k2 =>
              have := hk k2 (by simpa using hklt)
              simpa using this
    · rw [if_neg hj] at h
      cases hrec : sampleRowsBinary validate sample v1 v2 js r with
      | error e =>
        rw [hrec] at h
        simp at h
      | ok triple =>
        obtain ⟨rest, rEnd2, tr2⟩ := triple
        rw [hrec] at h
        simp only [Except.ok.injEq, Prod.mk.injEq] at h
        obtain ⟨rfl, rfl, rfl⟩ := h
        obtain ⟨hl, hc, he, hk⟩ := ih r rest rEnd2 tr2 hrec
        have hjf : (v1.rowValid j && v2.rowValid j) = false :=
          Bool.not_eq_true _ |>.mp hj
        refine ⟨by simp [hl], ?_, ?_, ?_⟩
        · simp [List.countP_cons, hjf, hc]
        · simp [List.countP_cons, hjf, he]
        · intro k hklt
          cases k with
          | zero => simp [hjf]
          | succ k2 =>
            have := hk k2 (by simpa using hklt)
            simpa using this

theorem DistributionSampleBinary_const_ok {P1 P2 R E : Type}
    [Inhabited P1] [Inhabited P2] (validate : P1 → P2 → Except E Unit)
    (sample : P1 → P2 → Nat → R) (p1 : P1) (p2 : P2) (n r0 : Nat)
    (hv : validate p1 p2 = .ok ()) :
    DistributionSampleBinary validate sample (Vec.const (some p1))
      (Vec.const (some p2)) n r0
      = .ok ((if n = 1 then .constVal (sample p1 p2 r0)
          else .flat ((List.range n).map fun i =>
            some (sample p1 p2 (r0 + i)))), r0 + n,
          Event.validate :: Event.construct ::
            List.replicate n Event.draw) := by
  simp [DistributionSampleBinary, Vec.isConst, Vec.isConstNull, Vec.cdata,
    hv]

theorem DistributionSampleUnary_const_ok {P1 R E : Type} [Inhabited P1]
    (validate : P1 → Except E Unit) (sample : P1 → Nat → R) (p1 : P1)
    (n r0 : Nat) (hv : validate p1 = .ok ()) :
    DistributionSampleUnary validate sample (Vec.const (some p1)) n r0
      = .ok ((if n = 1 then .constVal (sample p1 r0)
          else .flat ((List.range n).map fun i =>
            some (sample p1 (r0 + i)))), r0 + n,
          Event.validate :: Event.construct ::
            List.replicate n Event.draw) := by
  simp [DistributionSampleUnary, Vec.isConst, Vec.isConstNull, Vec.cdata,
    hv]

/-- C6: behaviour of `DistributionSampleBinary`.  With constant non-null
shape parameters, the parameters are validated exactly once and one
distribution instance is built, after which one independent draw per row is
taken — the trace holds `n` draw events and the RNG advances `n` times, one
step per output row, with row `i` receiving the draw made in state
`r0 + i`, so no constant-output collapsing happens (for `n ≠ 1` the result
stays a flat vector of `n` separately drawn values).  With a null constant
shape parameter the whole output is the constant null and no draw is taken.
On the per-row path, a row with a null shape parameter yields a null output
row, and the number of draws taken equals the number of rows whose shape
parameters are all non-null. -/
theorem C6_sampling_draw_per_row {P1 P2 R E : Type} [Inhabited P1]
    [Inhabited P2] (validate : P1 → P2 → Except E Unit)
    (sample : P1 → P2 → Nat → R) :
    (∀ (p1 : P1) (p2 : P2) (n r0 : Nat), validate p1 p2 = .ok () →
      DistributionSampleBinary validate sample (Vec.const (some p1))
        (Vec.const (some p2)) n r0
        = .ok ((if n = 1 then .constVal (sample p1 p2 r0)
            else .flat ((List.range n).map fun i =>
              some (sample p1 p2 (r0 + i)))), r0 + n,
            Event.validate :: Event.construct ::
              List.replicate n Event.draw)) ∧
    (∀ (p1 : P1) (p2 : P2) (n r0 : Nat), validate p1 p2 = .ok () →
      ∀ res rEnd tr,
        DistributionSampleBinary validate sample (Vec.const (some p1))
          (Vec.const (some p2)) n r0 = .ok (res, rEnd, tr) →
        tr.count Event.validate = 1 ∧ tr.count Event.construct = 1 ∧
        tr.count Event.draw = n ∧ rEnd = r0 + n ∧
        ∀ i, i < n → res.row i = some (sample p1 p2 (r0 + i))) ∧
    (∀ (v1 : Vec P1) (v2 : Vec P2) (n r0 : Nat),
      (v1.isConst && v2.isConst) = true →
      (v1.isConstNull || v2.isConstNull) = true →
      DistributionSampleBinary validate sample v1 v2 n r0
        = .ok (.constNull, r0, [])) ∧
    (∀ (v1 : Vec P1) (v2 : Vec P2) (n r0 : Nat) res rEnd tr,
      (v1.isConst && v2.isConst) = false →
      DistributionSampleBinary validate sample v1 v2 n r0
        = .ok (res, rEnd, tr) →
      ∃ rows, res = .flat rows ∧ rows.length = n ∧
        tr.count Event.draw
          = (List.range n).countP (fun i => v1.rowValid i && v2.rowValid i) ∧
        rEnd = r0
          + (List.range n).countP (fun i => v1.rowValid i && v2.rowValid i) ∧
        ∀ i, i < n →
          (rows.getD i none).isSome = (v1.rowValid i && v2.rowValid i)) := by
  refine ⟨?_, ?_, ?_, ?_⟩
  · intro p1 p2 n r0 hv
    exact DistributionSampleBinary_const_ok validate sample p1 p2 n r0 hv
  · intro p1 p2 n r0 hv res rEnd tr h
    rw [DistributionSampleBinary_const_ok validate sample p1 p2 n r0 hv]
      at h
    simp only [Except.ok.injEq, Prod.mk.injEq] at h
    obtain ⟨rfl, rfl, rfl⟩ := h
    refine ⟨by simp [List.count_cons, List.count_replicate], ?_, ?_, rfl, ?_⟩
    · simp [List.count_cons, List.count_replicate]
    · simp [List.count_cons, List.count_replicate]
    · intro i hin
      by_cases hn : n = 1
      · subst hn
        obtain rfl : i = 0 := by omega
        simp [RVec.row]
      · rw [if_neg hn]
        simp [RVec.row, List.getD, List.getElem?_replicate, hin]
  · intro v1 v2 n r0 hconst hnull
    cases v1 with
    | flat d m => simp [Vec.isConst] at hconst
    | const o1 =>
      cases v2 with
      | flat d m => simp [Vec.isConst] at hconst
      | const o2 =>
        cases o1 with
        | none => simp [DistributionSampleBinary, Vec.isConst, Vec.isConstNull]
        | some x1 =>
          cases o2 with
          | none =>
            simp [DistributionSampleBinary, Vec.isConst, Vec.isConstNull]
          | some x2 => simp [Vec.isConstNull] at hnull
  · intro v1 v2 n r0 res rEnd tr hncon h
    rw [DistributionSampleBinary] at h
    rw [hncon] at h
    simp only [Bool.false_eq_true, if_false] at h
    cases hrun : sampleRowsBinary validate sample v1 v2 (List.range n) r0 with
    | error e =>
      rw [hrun] at h
      simp at h
    | ok triple =>
      obtain ⟨rows0, rEnd0, tr0⟩ := triple
      rw [hrun] at h
      simp only [Except.ok.injEq, Prod.mk.injEq] at h
      obtain ⟨rfl, rfl, rfl⟩ := h
      obtain ⟨hl, hc, he, hk⟩ := sampleRowsBinary_ok_spec validate sample
        v1 v2 (List.range n) r0 rows0 rEnd0 tr0 hrun
      refine ⟨rows0, rfl, by simpa using hl, by simpa using hc,
        by simpa using he, ?_⟩
      intro i hin
      have hthis := hk i (by simpa using hin)
      have hgd : (List.range n).getD i 0 = i := by
        rw [List.getD_eq_getElem?_getD, List.getElem?_range hin]
        rfl
      rw [hgd] at hthis
      exact hthis

/-- C6 witness: the sampling facts at concrete inputs — three draws in
successive RNG states for a three-row batch with constant parameters, a
constant-null batch drawing nothing, and the per-row facts at a three-row
batch whose middle shape-parameter row is null (two draws taken, middle
output row null). -/
theorem C6_sampling_draw_per_row_witness :
    DistributionSampleBinary (E := Unit) (fun _ _ => .ok ())
      (fun p1 p2 r => (p1 + p2 + r : Int)) (Vec.const (some 1))
      (Vec.const (some 2)) 3 10
      = .ok ((if 3 = 1 then .constVal ((1 : Int) + 2 + 10)
          else .flat ((List.range 3).map fun i =>
            some ((1 : Int) + 2 + (10 + i)))), 10 + 3,
          Event.validate :: Event.construct ::
            List.replicate 3 Event.draw) ∧
    DistributionSampleBinary (E := Unit) (fun _ _ => .ok ())
      (fun p1 p2 r => (p1 + p2 + r : Int)) (Vec.const none)
      (Vec.const (some 2)) 3 10 = .ok (.constNull, 10, []) ∧
    (∃ rows, RVec.flat [some ((1 : Int) + 2 + 10), none, some (1 + 2 + 11)]
        = .flat rows ∧ rows.length = 3 ∧
      ([Event.validate, Event.construct, Event.draw, Event.validate,
        Event.construct, Event.draw] : Trace).count Event.draw
        = (List.range 3).countP (fun i =>
            (Vec.flat [(1 : Int), 1, 1] [true, false, true]).rowValid i &&
              (Vec.const (some (2 : Int))).rowValid i) ∧
      (12 : Nat) = 10 + (List.range 3).countP (fun i =>
            (Vec.flat [(1 : Int), 1, 1] [true, false, true]).rowValid i &&
              (Vec.const (some (2 : Int))).rowValid i) ∧
      ∀ i, i < 3 → (rows.getD i none).isSome
        = ((Vec.flat [(1 : Int), 1, 1] [true, false, true]).rowValid i &&
            (Vec.const (some (2 : Int))).rowValid i)) := by
  refine ⟨?_, ?_, ?_⟩
  · exact (C6_sampling_draw_per_row (E := Unit) (fun _ _ => .ok ())
      (fun p1 p2 r => (p1 + p2 + r : Int))).1 1 2 3 10 rfl
  · exact (C6_sampling_draw_per_row (E := Unit) (fun _ _ => .ok ())
      (fun p1 p2 r => (p1 + p2 + r : Int))).2.2.1 (Vec.const none)
      (Vec.const (some 2)) 3 10 (by decide) (by decide)
  · exact (C6_sampling_draw_per_row (E := Unit) (fun _ _ => .ok ())
      (fun p1 p2 r => (p1 + p2 + r : Int))).2.2.2
      (Vec.flat [1, 1, 1] [true, false, true]) (Vec.const (some 2)) 3 10
      (.flat [some (1 + 2 + 10), none, some (1 + 2 + 11)]) 12
      [Event.validate, Event.construct, Event.draw, Event.validate,
       Event.construct, Event.draw] (by decide) (by decide)

/-- C10: in `DistributionSampleUnary` and `DistributionSampleBinary` with
constant non-null shape parameters, the result vector is marked constant
only when the batch size is exactly 1; for every other batch size the
result stays a flat vector holding one separately drawn value per row. -/
theorem C10_constant_marking_only_single_row {P1 P2 R E : Type}
    [Inhabited P1] [Inhabited P2] (validate2 : P1 → P2 → Except E Unit)
    (sample2 : P1 → P2 → Nat → R) (validate1 : P1 → Except E Unit)
    (sample1 : P1 → Nat → R) :
    (∀ (p1 : P1) (p2 : P2) (r0 : Nat), validate2 p1 p2 = .ok () →
      DistributionSampleBinary validate2 sample2 (Vec.const (some p1))
        (Vec.const (some p2)) 1 r0
        = .ok (.constVal (sample2 p1 p2 r0), r0 + 1,
            [Event.validate, Event.construct, Event.draw])) ∧
    (∀ (p1 : P1) (p2 : P2) (n r0 : Nat), validate2 p1 p2 = .ok () →
      n ≠ 1 →
      DistributionSampleBinary validate2 sample2 (Vec.const (some p1))
        (Vec.const (some p2)) n r0
        = .ok (.flat ((List.range n).map fun i =>
            some (sample2 p1 p2 (r0 + i))), r0 + n,
            Event.validate :: Event.construct ::
              List.replicate n Event.draw)) ∧
    (∀ (p1 : P1) (r0 : Nat), validate1 p1 = .ok () →
      DistributionSampleUnary validate1 sample1 (Vec.const (some p1)) 1 r0
        = .ok (.constVal (sample1 p1 r0), r0 + 1,
            [Event.validate, Event.construct, Event.draw])) ∧
    (∀ (p1 : P1) (n r0 : Nat), validate1 p1 = .ok () → n ≠ 1 →
      DistributionSampleUnary validate1 sample1 (Vec.const (some p1)) n r0
        = .ok (.flat ((List.range n).map fun i =>
            some (sample1 p1 (r0 + i))), r0 + n,
            Event.validate :: Event.construct ::
              List.replicate n Event.draw)) := by
  refine ⟨?_, ?_, ?_, ?_⟩
  · intro p1 p2 r0 hv
    rw [DistributionSampleBinary_const_ok validate2 sample2 p1 p2 1 r0 hv]
    simp
  · intro p1 p2 n r0 hv hn
    rw [DistributionSampleBinary_const_ok validate2 sample2 p1 p2 n r0 hv,
      if_neg hn]
  · intro p1 r0 hv
    rw [DistributionSampleUnary_const_ok validate1 sample1 p1 1 r0 hv]
    simp
  · intro p1 n r0 hv hn
    rw [DistributionSampleUnary_const_ok validate1 sample1 p1 n r0 hv,
      if_neg hn]

/-- C10 witness: the constant marking at batch sizes 1 and 4. -/
theorem C10_constant_marking_only_single_row_witness :
    DistributionSampleBinary (E := Unit) (fun _ _ => .ok ())
      (fun p1 p2 r => (p1 + p2 + r : Int)) (Vec.const (some 1))
      (Vec.const (some 2)) 1 0
      = .ok (.constVal 3, 0 + 1,
          [Event.validate, Event.construct, Event.draw]) ∧
    DistributionSampleUnary (E := Unit) (fun _ => .ok ())
      (fun p r => (p + r : Int)) (Vec.const (some 5)) 4 0
      = .ok (.flat ((List.range 4).map fun i => some ((5 : Int) + (0 + i))),
          0 + 4, Event.validate :: Event.construct ::
            List.replicate 4 Event.draw) :=
  ⟨C10_constant_marking_only_single_row (E := Unit) (fun _ _ => .ok ())
      (fun p1 p2 r => (p1 + p2 + r : Int)) (fun _ => .ok ())
      (fun p r => p + r) |>.1 1 2 0 rfl,
   C10_constant_marking_only_single_row (E := Unit) (fun _ _ => .ok ())
      (fun p1 p2 r => (p1 + p2 + r : Int)) (fun _ => .ok ())
      (fun p r => p + r) |>.2.2.2 5 4 0 rfl (by decide)⟩

end Stochastic
